import Mathlib

/-!
Verification of the LinkedIt Gulf-job Telegram bot (src/bot.py, src/database.py).

The development shallowly embeds the data model and the operations the spec
talks about: the search orchestrator `search_jobs_logic` with its TTL cache and
URL deduplication, the favorites CRUD (`save_favorite`, `count_favorites`) and
the save-job flow of `handle_callback`, the alert CRUD (`add_alert`,
`remove_alert`) and the alert scheduler `check_and_send_alerts`.

Python dict-based job records become a `Job` structure; a missing `job_url` key
is `none` (Python `job.get("job_url", "")` then yields `""`).  SQLite tables
become Lean lists of row structures, with each database function translated to
a pure state-passing function.  Timestamp columns (`saved_at`, `last_sent`,
`created_at`) are not read by any verified operation and are elided.  The
external scraping library is an opaque parameter `scrape`; wall-clock time is
an explicit `Nat` parameter.
-/

namespace LinkedIt

-- Constants from bot.py lines 74 to 91.
def MAX_RESULTS : Nat := 15

def RESULTS_PER_PAGE : Nat := 5

def MAX_FAVORITES : Nat := 50

def MAX_ALERTS : Nat := 5

def CACHE_TTL : Nat := 1800

-- `job_cache = TTLCache(maxsize=200, ttl=CACHE_TTL)` (bot.py line 126).
def CACHE_MAXSIZE : Nat := 200

-- Keys of the COUNTRIES dict (bot.py lines 86 to 91), in insertion order.
def COUNTRIES : List String := ["qa", "ae", "sa", "bh"]

/-- Job record scraped by `_search_single_country`: the fields of the pandas
row dict that the bot reads, plus the two fields the bot adds
(`_country_name`, `_email`).  `job_url` is `none` when the key is absent. -/
structure Job where
  job_url : Option String
  title : String
  company : String
  location : String
  site : String
  description : String
  country_name : String
  email : String
deriving DecidableEq, Repr

/-- Embeds `str(job.get("job_url", ""))` (bot.py line 423): a missing key
yields the empty string. -/
def jobUrlStr (job : Job) : String :=
  job.job_url.getD ""

/-- Embeds the dedup loop of `search_jobs_logic` (bot.py lines 420 to 426):
`seen` accumulates the URLs already kept; a job is kept when its URL is
non-empty and not yet seen. -/
def dedupeAux (seen : List String) : List Job → List Job
  | [] => []
  | job :: rest =>
    let url := jobUrlStr job
    if url ≠ "" ∧ url ∉ seen then
      job :: dedupeAux (url :: seen) rest
    else
      dedupeAux seen rest

/-- The whole dedup step of `search_jobs_logic` (bot.py lines 419 to 427),
starting from `seen_urls = set()`. -/
def dedupeJobs (jobs : List Job) : List Job :=
  dedupeAux [] jobs

-- Core lemma about the dedup loop: every kept job has a non-empty URL that
-- was not in `seen`, and is the first job of the input with that URL.
lemma dedupeAux_mem_spec (seen : List String) (l : List Job) :
    ∀ j ∈ dedupeAux seen l,
      jobUrlStr j ∉ seen ∧ jobUrlStr j ≠ "" ∧
        l.find? (fun x => jobUrlStr x == jobUrlStr j) = some j := by
  induction l generalizing seen with
  | nil => intro j hj; simp [dedupeAux] at hj
  | cons job rest ih =>
    intro j hj
    by_cases hc : jobUrlStr job ≠ "" ∧ jobUrlStr job ∉ seen
    · rw [dedupeAux, if_pos hc] at hj
      rcases List.mem_cons.mp hj with rfl | hj'
      · refine ⟨hc.2, hc.1, ?_⟩
        rw [List.find?_cons_of_pos]
        simp
      · obtain ⟨hnot, hne, hfind⟩ := ih (jobUrlStr job :: seen) j hj'
        have hne' : jobUrlStr j ≠ jobUrlStr job := by
          intro h; exact hnot (h ▸ List.mem_cons_self _ _)
        refine ⟨fun h => hnot (List.mem_cons_of_mem _ h), hne, ?_⟩
        rw [List.find?_cons_of_neg, hfind]
        simp [hne'.symm]
    · rw [dedupeAux, if_neg hc] at hj
      obtain ⟨hnot, hne, hfind⟩ := ih seen j hj
      have hne' : jobUrlStr job ≠ jobUrlStr j := by
        intro h
        rcases Decidable.not_and_iff_or_not.mp hc with h1 | h1
        · exact hne (h ▸ Decidable.not_not.mp h1)
        · exact hnot (h ▸ Decidable.not_not.mp h1)
      refine ⟨hnot, hne, ?_⟩
      rw [List.find?_cons_of_neg, hfind]
      simp [hne']

-- The dedup loop yields pairwise distinct URLs.
lemma dedupeAux_pairwise (seen : List String) (l : List Job) :
    (dedupeAux seen l).Pairwise (fun a b => jobUrlStr a ≠ jobUrlStr b) := by
  induction l generalizing seen with
  | nil => simp [dedupeAux]
  | cons job rest ih =>
    by_cases hc : jobUrlStr job ≠ "" ∧ jobUrlStr job ∉ seen
    · rw [dedupeAux, if_pos hc]
      refine List.pairwise_cons.mpr ⟨?_, ih _⟩
      intro j hj h
      have := (dedupeAux_mem_spec (jobUrlStr job :: seen) rest j hj).1
      exact this (h ▸ List.mem_cons_self _ _)
    · rw [dedupeAux, if_neg hc]; exact ih seen

-- In a list with pairwise distinct URLs, each URL matches at most one entry.
lemma pairwise_filter_le_one (l : List Job) (url : String)
    (h : l.Pairwise (fun a b => jobUrlStr a ≠ jobUrlStr b)) :
    (l.filter (fun j => jobUrlStr j == url)).length ≤ 1 := by
  induction l with
  | nil => simp
  | cons a t ih =>
    rcases List.pairwise_cons.mp h with ⟨ha, ht⟩
    by_cases hm : (jobUrlStr a == url) = true
    · have hnil : t.filter (fun j => jobUrlStr j == url) = [] := by
        apply List.filter_eq_nil_iff.mpr
        intro j hj
        simp only [beq_iff_eq] at hm ⊢
        intro hju
        exact ha j hj (hm.trans hju.symm)
      simp [List.filter_cons, hm, hnil]
    · simp only [List.filter_cons, hm, if_false, Bool.false_eq_true]
      exact ih ht

/-- C1: the dedup step of `search_jobs_logic` keeps at most one job per
distinct URL, and the job kept for a URL is the first occurrence of that URL
in the input order (`List.find?` returns the first match). -/
theorem dedupe_unique_first_occurrence (jobs : List Job) (url : String) :
    ((dedupeJobs jobs).filter (fun j => jobUrlStr j == url)).length ≤ 1 ∧
      ∀ j ∈ dedupeJobs jobs,
        jobs.find? (fun x => jobUrlStr x == jobUrlStr j) = some j := by
  constructor
  · exact pairwise_filter_le_one _ _ (dedupeAux_pairwise [] jobs)
  · intro j hj
    exact (dedupeAux_mem_spec [] jobs j hj).2.2

/-- Witness for C1 on a concrete list: a duplicate URL is dropped and the
first occurrence is kept. -/
theorem dedupe_unique_first_occurrence_witness :
    ((dedupeJobs [⟨some "u1", "a", "", "", "", "", "", ""⟩,
                  ⟨some "u1", "b", "", "", "", "", "", ""⟩]).filter
        (fun j => jobUrlStr j == "u1")).length ≤ 1 ∧
      [(⟨some "u1", "a", "", "", "", "", "", ""⟩ : Job),
       ⟨some "u1", "b", "", "", "", "", "", ""⟩].find?
          (fun x => jobUrlStr x == jobUrlStr ⟨some "u1", "a", "", "", "", "", "", ""⟩)
        = some ⟨some "u1", "a", "", "", "", "", "", ""⟩ := by
  refine ⟨(dedupe_unique_first_occurrence _ "u1").1, ?_⟩
  exact (dedupe_unique_first_occurrence
    [⟨some "u1", "a", "", "", "", "", "", ""⟩,
     ⟨some "u1", "b", "", "", "", "", "", ""⟩] "u1").2
    ⟨some "u1", "a", "", "", "", "", "", ""⟩ (by decide)

/-- C9: every job kept by the dedup step of `search_jobs_logic` has a
non-empty URL; a job whose `job_url` is missing or empty is dropped. -/
theorem dedupe_drops_empty_url (jobs : List Job) :
    ∀ j ∈ dedupeJobs jobs, jobUrlStr j ≠ "" := by
  intro j hj
  exact (dedupeAux_mem_spec [] jobs j hj).2.1

/-- Witness for C9: a job with a missing URL is dropped, a job with a URL is
kept with its non-empty URL. -/
theorem dedupe_drops_empty_url_witness :
    dedupeJobs [⟨none, "a", "", "", "", "", "", ""⟩,
                ⟨some "u1", "b", "", "", "", "", "", ""⟩]
        = [⟨some "u1", "b", "", "", "", "", "", ""⟩] ∧
      jobUrlStr ⟨some "u1", "b", "", "", "", "", "", ""⟩ ≠ "" := by
  refine ⟨by decide, ?_⟩
  exact dedupe_drops_empty_url
    [⟨none, "a", "", "", "", "", "", ""⟩, ⟨some "u1", "b", "", "", "", "", "", ""⟩]
    ⟨some "u1", "b", "", "", "", "", "", ""⟩ (by decide)

/-- One entry of `job_cache` (bot.py line 126, a `TTLCache(maxsize=200,
ttl=CACHE_TTL)`): the key, the cached job list, and the insertion time. -/
structure CacheEntry where
  key : String
  value : List Job
  storedAt : Nat
deriving DecidableEq, Repr

/-- The `job_cache` state, newest entry first. -/
abbrev Cache := List CacheEntry

/-- TTLCache lookup (`cache_key in job_cache` / `job_cache[cache_key]`,
bot.py lines 382 to 384): an entry is visible while `now < storedAt + ttl`,
expired entries count as missing. -/
def cacheLookup (cache : Cache) (key : String) (now : Nat) : Option (List Job) :=
  match cache.find? (fun e => e.key == key) with
  | some e => if now < e.storedAt + CACHE_TTL then some e.value else none
  | none => none

/-- TTLCache store (`job_cache[cache_key] = unique_jobs`, bot.py line 428):
the new entry replaces any entry with the same key; expired entries are
evicted and the cache is bounded by `CACHE_MAXSIZE`, dropping the oldest. -/
def cacheStore (cache : Cache) (key : String) (v : List Job) (now : Nat) : Cache :=
  CacheEntry.mk key v now ::
    (cache.filter
      (fun e => e.key != key && decide (now < e.storedAt + CACHE_TTL))).take
      (CACHE_MAXSIZE - 1)

/-- Embeds Python `str.lower()`: lowercase every character. -/
def pyLower (s : String) : String :=
  String.mk (s.data.map Char.toLower)

/-- Embeds Python `search_term.lower().strip()`: lowercase every character,
then drop whitespace from both ends. -/
def pyLowerStrip (s : String) : String :=
  String.mk
    ((((pyLower s).data.dropWhile Char.isWhitespace).reverse.dropWhile
        Char.isWhitespace).reverse)

/-- Embeds `cache_key = f"{search_term.lower().strip()}:{country_code}"`
(bot.py line 380). -/
def cacheKey (searchTerm countryCode : String) : String :=
  pyLowerStrip searchTerm ++ ":" ++ countryCode

/-- The external scraping call `_search_single_country` (bot.py lines 351 to
375), an opaque function of the search term and the country code.  The random
jitter delay and the thread pool are timing behaviour with no effect on the
returned value and are not modelled. -/
abbrev ScrapeFn := String → String → List Job

/-- Result of one `search_jobs_logic` call: the returned list, the cache
state after the call, and the country codes passed to scrape invocations
(empty on a cache hit). -/
structure SearchOutcome where
  results : List Job
  cache : Cache
  scrapeCalls : List String
deriving DecidableEq, Repr

/-- Embeds `search_jobs_logic` (bot.py lines 378 to 429): cache lookup, then
on a miss one scrape invocation per country in `COUNTRIES` for "all" or a
single invocation otherwise, then URL deduplication, then the cache store.
The `asyncio.wait_for` timeout branch (which yields an empty result list) is
not taken in this timeless model. -/
def search_jobs_logic (scrape : ScrapeFn) (cache : Cache) (now : Nat)
    (searchTerm countryCode : String) : SearchOutcome :=
  match cacheLookup cache (cacheKey searchTerm countryCode) now with
  | some cached => ⟨cached, cache, []⟩
  | none =>
    let allJobs :=
      if countryCode == "all" then
        (COUNTRIES.map (fun cc => scrape searchTerm cc)).flatten
      else
        scrape searchTerm countryCode
    let calls := if countryCode == "all" then COUNTRIES else [countryCode]
    let uniqueJobs := dedupeJobs allJobs
    ⟨uniqueJobs, cacheStore cache (cacheKey searchTerm countryCode) uniqueJobs now,
      calls⟩

/-- Embeds `trimmed_results = results[:MAX_RESULTS]` in `perform_search`
(bot.py line 583). -/
def trimmed_results (results : List Job) : List Job :=
  results.take MAX_RESULTS

-- A freshly stored entry is found as long as its TTL has not elapsed.
lemma cacheLookup_store_same (cache : Cache) (key : String) (v : List Job)
    (now t : Nat) (h : t < now + CACHE_TTL) :
    cacheLookup (cacheStore cache key v now) key t = some v := by
  simp [cacheLookup, cacheStore, List.find?_cons, h]

-- On a cache miss the orchestrator stores the deduplicated list and reports
-- it together with the scrape calls made.
lemma search_jobs_logic_miss (scrape : ScrapeFn) (cache : Cache) (now : Nat)
    (term country : String)
    (hmiss : cacheLookup cache (cacheKey term country) now = none) :
    search_jobs_logic scrape cache now term country
      = ⟨dedupeJobs (if country == "all" then
              (COUNTRIES.map (fun cc => scrape term cc)).flatten
            else scrape term country),
          cacheStore cache (cacheKey term country)
            (dedupeJobs (if country == "all" then
                (COUNTRIES.map (fun cc => scrape term cc)).flatten
              else scrape term country)) now,
          if country == "all" then COUNTRIES else [country]⟩ := by
  simp only [search_jobs_logic, hmiss]

-- A cache hit returns the cached list, leaves the cache unchanged and makes
-- no scrape call.
lemma search_jobs_logic_hit (scrape : ScrapeFn) (cache : Cache) (now : Nat)
    (term country : String) (v : List Job)
    (hhit : cacheLookup cache (cacheKey term country) now = some v) :
    search_jobs_logic scrape cache now term country = ⟨v, cache, []⟩ := by
  simp only [search_jobs_logic, hhit]

/-- C3: after a search that filled the cache at time `now`, a second search
whose normalized cache key coincides, run at any time `t` within the TTL,
returns exactly the previously cached list, leaves the cache unchanged, and
performs no scrape invocation (its scrape-call list is empty), regardless of
the scrape function supplied to the second call. -/
theorem repeat_search_returns_cached (scrape1 scrape2 : ScrapeFn) (cache : Cache)
    (now t : Nat) (term1 term2 country : String)
    (hkey : cacheKey term2 country = cacheKey term1 country)
    (hmiss : cacheLookup cache (cacheKey term1 country) now = none)
    (httl : t < now + CACHE_TTL) :
    search_jobs_logic scrape2
        (search_jobs_logic scrape1 cache now term1 country).cache t term2 country
      = ⟨(search_jobs_logic scrape1 cache now term1 country).results,
          (search_jobs_logic scrape1 cache now term1 country).cache, []⟩ := by
  rw [search_jobs_logic_miss scrape1 cache now term1 country hmiss]
  apply search_jobs_logic_hit
  rw [hkey]
  exact cacheLookup_store_same _ _ _ _ _ httl

/-- Witness for C3: a concrete repeated search ("a" then "A ", which
normalize to the same key) at times 0 and 100 returns the cached list with no
scrape call. -/
theorem repeat_search_returns_cached_witness :
    search_jobs_logic (fun _ cc => [⟨some "w", cc, "", "", "", "", "", ""⟩])
        (search_jobs_logic (fun _ _ => []) [] 0 "a" "qa").cache 100 "A " "qa"
      = ⟨(search_jobs_logic (fun _ _ => []) [] 0 "a" "qa").results,
          (search_jobs_logic (fun _ _ => []) [] 0 "a" "qa").cache, []⟩ :=
  repeat_search_returns_cached (fun _ _ => [])
    (fun _ cc => [⟨some "w", cc, "", "", "", "", "", ""⟩]) [] 0 100 "a" "A " "qa"
    (by decide) (by decide) (by decide)

-- Sixteen jobs with pairwise distinct URLs, more than MAX_RESULTS.
def sixteenJobs : List Job :=
  [⟨some "u01", "", "", "", "", "", "", ""⟩, ⟨some "u02", "", "", "", "", "", "", ""⟩,
   ⟨some "u03", "", "", "", "", "", "", ""⟩, ⟨some "u04", "", "", "", "", "", "", ""⟩,
   ⟨some "u05", "", "", "", "", "", "", ""⟩, ⟨some "u06", "", "", "", "", "", "", ""⟩,
   ⟨some "u07", "", "", "", "", "", "", ""⟩, ⟨some "u08", "", "", "", "", "", "", ""⟩,
   ⟨some "u09", "", "", "", "", "", "", ""⟩, ⟨some "u10", "", "", "", "", "", "", ""⟩,
   ⟨some "u11", "", "", "", "", "", "", ""⟩, ⟨some "u12", "", "", "", "", "", "", ""⟩,
   ⟨some "u13", "", "", "", "", "", "", ""⟩, ⟨some "u14", "", "", "", "", "", "", ""⟩,
   ⟨some "u15", "", "", "", "", "", "", ""⟩, ⟨some "u16", "", "", "", "", "", "", ""⟩]

/-- C4 counterexample: when the scrape returns 16 jobs with distinct URLs,
`search_jobs_logic` returns all 16 (more than `MAX_RESULTS` = 15) and caches
all 16 — the list is not capped before being cached or returned; the cap is
applied only later by `perform_search`. -/
theorem search_results_not_capped_counterexample :
    (search_jobs_logic (fun _ _ => sixteenJobs) [] 0 "a" "qa").results.length = 16 ∧
      MAX_RESULTS < 16 ∧
      cacheLookup (search_jobs_logic (fun _ _ => sixteenJobs) [] 0 "a" "qa").cache
          (cacheKey "a" "qa") 0
        = some (search_jobs_logic (fun _ _ => sixteenJobs) [] 0 "a" "qa").results := by
  refine ⟨by decide, by decide, by decide⟩

/-- C4 amended: `search_jobs_logic` caches and returns the full deduplicated
list uncapped; the cap at `MAX_RESULTS` = 15 is applied afterwards by
`perform_search`, whose `trimmed_results` slice of the returned list never
exceeds `MAX_RESULTS` entries. -/
theorem search_results_capped_by_perform_search (scrape : ScrapeFn)
    (cache : Cache) (now : Nat) (term country : String)
    (hmiss : cacheLookup cache (cacheKey term country) now = none) :
    cacheLookup (search_jobs_logic scrape cache now term country).cache
        (cacheKey term country) now
      = some (search_jobs_logic scrape cache now term country).results ∧
      (trimmed_results
          (search_jobs_logic scrape cache now term country).results).length
        ≤ MAX_RESULTS := by
  constructor
  · rw [search_jobs_logic_miss scrape cache now term country hmiss]
    exact cacheLookup_store_same _ _ _ _ _ (by simp [CACHE_TTL])
  · simp [trimmed_results, List.length_take]

/-- Witness for C4's amended claim at a concrete input: the cache holds the
full 16-job list while the trimmed list respects the cap. -/
theorem search_results_capped_by_perform_search_witness :
    cacheLookup (search_jobs_logic (fun _ _ => sixteenJobs) [] 0 "a" "qa").cache
        (cacheKey "a" "qa") 0
      = some (search_jobs_logic (fun _ _ => sixteenJobs) [] 0 "a" "qa").results ∧
      (trimmed_results
          (search_jobs_logic (fun _ _ => sixteenJobs) [] 0 "a" "qa").results).length
        ≤ MAX_RESULTS :=
  search_results_capped_by_perform_search (fun _ _ => sixteenJobs) [] 0 "a" "qa"
    (by decide)

/-- C5: with an empty cache, a search for one fixed country code performs
exactly one scrape invocation, for that country, while a search with the
"all" selector performs exactly one invocation per supported country, in the
order qa, ae, sa, bh. -/
theorem scrape_invocation_counts (scrape : ScrapeFn) (now : Nat)
    (term cc : String) (hcc : cc ≠ "all") :
    (search_jobs_logic scrape [] now term cc).scrapeCalls = [cc] ∧
      (search_jobs_logic scrape [] now term "all").scrapeCalls
        = ["qa", "ae", "sa", "bh"] := by
  have hb : (cc == "all") = false := beq_eq_false_iff_ne.mpr hcc
  have hmiss : ∀ k, cacheLookup [] k now = none := fun k => rfl
  constructor
  · rw [search_jobs_logic_miss scrape [] now term cc (hmiss _)]
    simp [hb]
  · rw [search_jobs_logic_miss scrape [] now term "all" (hmiss _)]
    simp [COUNTRIES]

/-- Witness for C5 at the concrete search of the spec's example: query
"Accountant", country "qa", and the "all" selector. -/
theorem scrape_invocation_counts_witness :
    (search_jobs_logic (fun _ _ => []) [] 0 "Accountant" "qa").scrapeCalls = ["qa"] ∧
      (search_jobs_logic (fun _ _ => []) [] 0 "Accountant" "all").scrapeCalls
        = ["qa", "ae", "sa", "bh"] :=
  scrape_invocation_counts (fun _ _ => []) 0 "Accountant" "qa" (by decide)

/-- One row of the `favorites` table (database.py lines 98 to 110), fields in
the order of the INSERT of `save_favorite`; the `id` and `saved_at` columns
are not read by the verified operations and are elided. -/
structure Favorite where
  user_id : Int
  job_title : String
  company : String
  location : String
  job_url : String
  email : String
  source : String
  country_name : String
  description : String
deriving DecidableEq, Repr

/-- Embeds `_safe_str` (database.py lines 184 to 191): a value whose
lowercasing is "nan", "none" or "" maps to the default. -/
def safe_str (s : String) (d : String) : String :=
  if pyLower s = "nan" ∨ pyLower s = "none" ∨ pyLower s = "" then d else s

/-- Embeds `job_url = _safe_str(job.get("job_url", ""))` in `save_favorite`
(database.py line 274). -/
def favJobUrl (job : Job) : String :=
  safe_str (job.job_url.getD "") ""

/-- Embeds `save_favorite` (database.py lines 272 to 304): when the
normalized URL is non-empty and the user already has a favorite with that
URL, return `false` and change nothing; otherwise insert the denormalized
snapshot row (description truncated to 500 characters) and return `true`. -/
def save_favorite (favs : List Favorite) (userId : Int) (job : Job) :
    Bool × List Favorite :=
  let jobUrl := favJobUrl job
  if jobUrl != "" &&
      favs.any (fun f => f.user_id == userId && f.job_url == jobUrl) then
    (false, favs)
  else
    (true, favs ++ [⟨userId, safe_str job.title "", safe_str job.company "",
      safe_str job.location "", jobUrl, safe_str job.email "",
      safe_str job.site "", safe_str job.country_name "",
      String.mk ((safe_str job.description "").data.take 500)⟩])

/-- Embeds `count_favorites` (database.py lines 335 to 344):
`SELECT COUNT(*) FROM favorites WHERE user_id = ?`. -/
def count_favorites (favs : List Favorite) (userId : Int) : Nat :=
  (favs.filter (fun f => f.user_id == userId)).length

/-- Outcome reported to the user by the `savejob_` branch of
`handle_callback` (bot.py lines 834 to 842). -/
inductive SaveOutcome where
  | limitReached
  | saved
  | alreadySaved
deriving DecidableEq, Repr

/-- Embeds the `savejob_` branch of `handle_callback` (bot.py lines 834 to
842): reject when the user already has `MAX_FAVORITES` favorites, otherwise
delegate to `save_favorite`. -/
def savejob_flow (favs : List Favorite) (userId : Int) (job : Job) :
    SaveOutcome × List Favorite :=
  if MAX_FAVORITES ≤ count_favorites favs userId then
    (SaveOutcome.limitReached, favs)
  else
    let r := save_favorite favs userId job
    (if r.1 then SaveOutcome.saved else SaveOutcome.alreadySaved, r.2)

-- Inserting via save_favorite grows the user's favorite count by at most one.
lemma save_favorite_count_le (favs : List Favorite) (userId : Int) (job : Job) :
    count_favorites (save_favorite favs userId job).2 userId
      ≤ count_favorites favs userId + 1 := by
  unfold save_favorite
  by_cases hc : (favJobUrl job != "" &&
      favs.any (fun f => f.user_id == userId && f.job_url == favJobUrl job)) = true
  · simp only [hc, if_true]
    exact Nat.le_succ _
  · simp only [hc, if_false, Bool.false_eq_true]
    simp only [count_favorites, List.filter_append, List.length_append]
    have : (List.filter (fun f => f.user_id == userId)
        [(⟨userId, safe_str job.title "", safe_str job.company "",
          safe_str job.location "", favJobUrl job, safe_str job.email "",
          safe_str job.site "", safe_str job.country_name "",
          String.mk ((safe_str job.description "").data.take 500)⟩ :
            Favorite)]).length ≤ 1 :=
      List.length_filter_le _ _
    omega

/-- C6: the save-job flow of `handle_callback` never lets a user's favorite
count exceed `MAX_FAVORITES` = 50; when the count is already at or above the
cap the action is rejected with the limit message and the favorites table is
left unchanged (no silent truncation). -/
theorem favorites_cap_enforced (favs : List Favorite) (userId : Int) (job : Job) :
    (MAX_FAVORITES ≤ count_favorites favs userId →
        savejob_flow favs userId job = (SaveOutcome.limitReached, favs)) ∧
      (count_favorites favs userId ≤ MAX_FAVORITES →
        count_favorites (savejob_flow favs userId job).2 userId ≤ MAX_FAVORITES) := by
  constructor
  · intro h
    simp [savejob_flow, h]
  · intro h
    by_cases hcap : MAX_FAVORITES ≤ count_favorites favs userId
    · simp only [savejob_flow, hcap, if_true]
      exact h
    · simp only [savejob_flow, hcap, if_false]
      have hle := save_favorite_count_le favs userId job
      have hlt := Nat.lt_of_not_le hcap
      omega

-- A user holding exactly MAX_FAVORITES favorites, for the witness of C6.
def fiftyFavs : List Favorite :=
  List.replicate 50 ⟨1, "", "", "", "u", "", "", "", ""⟩

/-- Witness for C6 at the cap boundary: with exactly 50 favorites the save
is rejected and the count stays within the cap. -/
theorem favorites_cap_enforced_witness :
    savejob_flow fiftyFavs 1 ⟨some "u2", "", "", "", "", "", "", ""⟩
        = (SaveOutcome.limitReached, fiftyFavs) ∧
      count_favorites
          (savejob_flow fiftyFavs 1 ⟨some "u2", "", "", "", "", "", "", ""⟩).2 1
        ≤ MAX_FAVORITES := by
  have h := favorites_cap_enforced fiftyFavs 1 ⟨some "u2", "", "", "", "", "", "", ""⟩
  exact ⟨h.1 (by decide), h.2 (by decide)⟩

-- A job whose URL is missing: save_favorite skips the duplicate check.
def noUrlJob : Job :=
  ⟨none, "title", "co", "loc", "site", "desc", "qa", "mail"⟩

/-- C7 counterexample: for a job with a missing (hence empty) URL the second
`save_favorite` call is not a no-op — it returns `true` again and inserts a
second row for the same (user, job URL) pair, because the duplicate check is
skipped when the normalized URL is empty (database.py line 278). -/
theorem save_favorite_empty_url_counterexample :
    (save_favorite [] 1 noUrlJob).1 = true ∧
      (save_favorite (save_favorite [] 1 noUrlJob).2 1 noUrlJob).1 = true ∧
      (save_favorite (save_favorite [] 1 noUrlJob).2 1 noUrlJob).2.length = 2 := by
  refine ⟨by decide, by decide, by decide⟩

-- After a save_favorite call the user owns a favorite with the job's URL.
lemma save_favorite_mem (favs : List Favorite) (userId : Int) (job : Job)
    (h : favJobUrl job ≠ "") :
    ((save_favorite favs userId job).2).any
      (fun f => f.user_id == userId && f.job_url == favJobUrl job) = true := by
  unfold save_favorite
  by_cases hex : (favs.any
      (fun f => f.user_id == userId && f.job_url == favJobUrl job)) = true
  · simp [bne_iff_ne.mpr h, hex]
  · simp [bne_iff_ne.mpr h, hex]

/-- C7 amended: for every job whose normalized URL is non-empty, a second
`save_favorite` call for the same user is a no-op: it returns `false` and
leaves the favorites table unchanged, so at most one favorite exists per
(user, job URL) pair; a job with an empty or missing URL bypasses the
duplicate check and can be saved repeatedly. -/
theorem save_favorite_second_noop (favs : List Favorite) (userId : Int)
    (job : Job) (h : favJobUrl job ≠ "") :
    save_favorite (save_favorite favs userId job).2 userId job
      = (false, (save_favorite favs userId job).2) := by
  have hmem := save_favorite_mem favs userId job h
  generalize (save_favorite favs userId job).2 = favs2 at hmem ⊢
  simp [save_favorite, bne_iff_ne.mpr h, hmem]

/-- Witness for C7's amended claim at a concrete job with URL "u1". -/
theorem save_favorite_second_noop_witness :
    save_favorite
        (save_favorite [] 1 ⟨some "u1", "t", "c", "l", "s", "d", "n", "e"⟩).2 1
        ⟨some "u1", "t", "c", "l", "s", "d", "n", "e"⟩
      = (false,
          (save_favorite [] 1 ⟨some "u1", "t", "c", "l", "s", "d", "n", "e"⟩).2) :=
  save_favorite_second_noop [] 1 ⟨some "u1", "t", "c", "l", "s", "d", "n", "e"⟩
    (by decide)

/-- One row of the `alerts` table (database.py lines 113 to 121); the
`last_sent` and `created_at` columns are not read by the verified operations
and are elided. -/
structure Alert where
  id : Int
  user_id : Int
  keyword : String
  country_code : String
  is_active : Int
deriving DecidableEq, Repr

/-- One row of the `users` table restricted to the columns the alert
operations touch: the key and the `alerts_enabled` flag. -/
structure UserRow where
  user_id : Int
  alerts_enabled : Int
deriving DecidableEq, Repr

/-- The database state seen by the alert operations: the `users` and
`alerts` tables. -/
structure AlertDB where
  users : List UserRow
  alerts : List Alert
deriving DecidableEq, Repr

/-- Embeds the SQL `UPDATE users SET alerts_enabled = v WHERE user_id = ?`
row transformer used by `add_alert` (v = 1) and `remove_alert` (v = 0). -/
def setEnabled (userId v : Int) (u : UserRow) : UserRow :=
  if u.user_id == userId then ⟨u.user_id, v⟩ else u

/-- Embeds the SQL `UPDATE alerts SET is_active = 0 WHERE id = ? AND
user_id = ?` row transformer of `remove_alert` (database.py line 395). -/
def deactivateMatching (alertId userId : Int) (a : Alert) : Alert :=
  if a.id == alertId && a.user_id == userId then
    ⟨a.id, a.user_id, a.keyword, a.country_code, 0⟩
  else a

/-- Embeds `_ensure_user_exists` (database.py lines 167 to 181): insert a
fresh user row (with `alerts_enabled` at its default 0) when none exists. -/
def ensure_user_exists (users : List UserRow) (userId : Int) : List UserRow :=
  if users.any (fun u => u.user_id == userId) then users
  else users ++ [⟨userId, 0⟩]

/-- Embeds `add_alert` (database.py lines 351 to 373): ensure the user row,
then return -1 on an active duplicate (same user, lowercased-stripped
keyword and country), otherwise insert an active alert with the fresh rowid
`newId` and set the user's `alerts_enabled` flag to 1. -/
def add_alert (db : AlertDB) (userId : Int) (keyword country : String)
    (newId : Int) : Int × AlertDB :=
  if db.alerts.any (fun a => a.user_id == userId &&
      a.keyword == pyLowerStrip keyword && a.country_code == country &&
      a.is_active == 1) then
    (-1, ⟨ensure_user_exists db.users userId, db.alerts⟩)
  else
    (newId,
      ⟨(ensure_user_exists db.users userId).map (setEnabled userId 1),
        db.alerts ++ [⟨newId, userId, pyLowerStrip keyword, country, 1⟩]⟩)

/-- Embeds `remove_alert` (database.py lines 390 to 410): soft-delete by
setting `is_active` to 0 on the matching row, then reset the user's
`alerts_enabled` flag when no active alert remains for them; the Boolean is
the `rowcount > 0` result. -/
def remove_alert (db : AlertDB) (userId alertId : Int) : Bool × AlertDB :=
  let alerts2 := db.alerts.map (deactivateMatching alertId userId)
  let remaining :=
    (alerts2.filter (fun a => a.user_id == userId && a.is_active == 1)).length
  let users2 :=
    if remaining == 0 then db.users.map (setEnabled userId 0) else db.users
  (decide (0 < (db.alerts.filter
      (fun a => a.id == alertId && a.user_id == userId)).length),
    ⟨users2, alerts2⟩)

/-- Embeds the delivery loop of `check_and_send_alerts` (bot.py lines 1109
to 1122): send each new job; on the first failed send (user unreachable) the
alert is removed via `remove_alert` and the loop breaks. -/
def deliver_new_jobs (sendOk : Job → Bool) (db : AlertDB)
    (userId alertId : Int) : List Job → AlertDB
  | [] => db
  | job :: rest =>
    if sendOk job then deliver_new_jobs sendOk db userId alertId rest
    else (remove_alert db userId alertId).2

-- Component shapes of remove_alert, for rewriting.
lemma remove_alert_alerts_def (db : AlertDB) (userId alertId : Int) :
    (remove_alert db userId alertId).2.alerts
      = db.alerts.map (deactivateMatching alertId userId) := rfl

lemma remove_alert_users_def (db : AlertDB) (userId alertId : Int) :
    (remove_alert db userId alertId).2.users
      = if (((db.alerts.map (deactivateMatching alertId userId)).filter
            (fun a => a.user_id == userId && a.is_active == 1)).length == 0) then
          db.users.map (setEnabled userId 0)
        else db.users := rfl

-- Basic facts about the row transformers.
lemma setEnabled_user_id (userId v : Int) (u : UserRow) :
    (setEnabled userId v u).user_id = u.user_id := by
  unfold setEnabled; split <;> rfl

lemma setEnabled_eq_of_ne (userId v : Int) (u : UserRow)
    (h : u.user_id ≠ userId) : setEnabled userId v u = u := by
  unfold setEnabled
  rw [if_neg]
  simp [h]

lemma deactivateMatching_user_id (alertId userId : Int) (a : Alert) :
    (deactivateMatching alertId userId a).user_id = a.user_id := by
  unfold deactivateMatching; split <;> rfl

lemma deactivateMatching_active (alertId userId : Int) (a : Alert)
    (h : (deactivateMatching alertId userId a).is_active = 1) :
    a.is_active = 1 := by
  unfold deactivateMatching at h
  by_cases hc : (a.id == alertId && a.user_id == userId) = true
  · rw [if_pos hc] at h
    simp at h
  · rwa [if_neg hc] at h

lemma deactivateMatching_eq_of_ne (alertId userId : Int) (a : Alert)
    (h : a.user_id ≠ userId) : deactivateMatching alertId userId a = a := by
  unfold deactivateMatching
  rw [if_neg]
  simp [h]

-- Soft delete keeps every row's identity and deactivates the matching row.
lemma deact_map_ids (alerts : List Alert) (alertId userId : Int) :
    (alerts.map (deactivateMatching alertId userId)).map
        (fun a => (a.id, a.user_id))
      = alerts.map (fun a => (a.id, a.user_id)) := by
  rw [List.map_map]
  apply List.map_congr_left
  intro a _
  simp only [Function.comp_apply]
  unfold deactivateMatching
  split <;> rfl

lemma remove_alert_soft (db : AlertDB) (userId alertId : Int) :
    ((remove_alert db userId alertId).2.alerts.map (fun a => (a.id, a.user_id))
        = db.alerts.map (fun a => (a.id, a.user_id))) ∧
      ∀ a ∈ (remove_alert db userId alertId).2.alerts,
        a.id = alertId → a.user_id = userId → a.is_active = 0 := by
  constructor
  · rw [remove_alert_alerts_def]
    exact deact_map_ids db.alerts alertId userId
  · intro a ha hid huid
    rw [remove_alert_alerts_def] at ha
    rw [List.mem_map] at ha
    obtain ⟨a0, _, rfl⟩ := ha
    by_cases hc : (a0.id == alertId && a0.user_id == userId) = true
    · simp [deactivateMatching, hc]
    · have h0 : deactivateMatching alertId userId a0 = a0 := by
        unfold deactivateMatching; rw [if_neg hc]
      rw [h0] at hid huid
      exact absurd (by simp [hid, huid]) hc

/-- C8: when a job delivery fails in the alert scheduler loop, the alert is
deactivated by a soft delete: every alert row keeps its identity (no row is
removed from the alerts table), and if some job's send fails then the
matching alert's `is_active` flag is 0 afterwards. -/
theorem alert_soft_delete_on_failure (sendOk : Job → Bool) (db : AlertDB)
    (userId alertId : Int) (jobs : List Job) :
    ((deliver_new_jobs sendOk db userId alertId jobs).alerts.map
          (fun a => (a.id, a.user_id))
        = db.alerts.map (fun a => (a.id, a.user_id))) ∧
      ((∃ j ∈ jobs, sendOk j = false) →
        ∀ a ∈ (deliver_new_jobs sendOk db userId alertId jobs).alerts,
          a.id = alertId → a.user_id = userId → a.is_active = 0) := by
  induction jobs with
  | nil =>
    refine ⟨rfl, ?_⟩
    rintro ⟨j, hj, _⟩
    simp at hj
  | cons job rest ih =>
    by_cases hs : sendOk job = true
    · rw [deliver_new_jobs, if_pos hs]
      refine ⟨ih.1, ?_⟩
      rintro ⟨j, hj, hfail⟩
      rcases List.mem_cons.mp hj with rfl | hj'
      · rw [hs] at hfail; cases hfail
      · exact ih.2 ⟨j, hj', hfail⟩
    · rw [deliver_new_jobs, if_neg hs]
      refine ⟨(remove_alert_soft db userId alertId).1, ?_⟩
      intro _
      exact (remove_alert_soft db userId alertId).2

/-- Witness for C8 on a one-alert database where the only send fails: the
row survives with its identity and ends up inactive. -/
theorem alert_soft_delete_on_failure_witness :
    ((deliver_new_jobs (fun _ => false) ⟨[⟨7, 1⟩], [⟨1, 7, "k", "all", 1⟩]⟩ 7 1
          [⟨none, "", "", "", "", "", "", ""⟩]).alerts.map
        (fun a => (a.id, a.user_id)) = [((1 : Int), (7 : Int))]) ∧
      ∀ a ∈ (deliver_new_jobs (fun _ => false) ⟨[⟨7, 1⟩], [⟨1, 7, "k", "all", 1⟩]⟩
          7 1 [⟨none, "", "", "", "", "", "", ""⟩]).alerts,
        a.id = 1 → a.user_id = 7 → a.is_active = 0 := by
  have h := alert_soft_delete_on_failure (fun _ => false)
    ⟨[⟨7, 1⟩], [⟨1, 7, "k", "all", 1⟩]⟩ 7 1 [⟨none, "", "", "", "", "", "", ""⟩]
  refine ⟨h.1.trans (by decide), ?_⟩
  exact h.2 ⟨⟨none, "", "", "", "", "", "", ""⟩, by decide, rfl⟩

/-- The invariant of C10 on the two tables: a user's `alerts_enabled` flag
is 1 exactly when the user owns at least one active alert. -/
def alertsEnabledInvariant (users : List UserRow) (alerts : List Alert) : Prop :=
  ∀ u ∈ users, (u.alerts_enabled = 1 ↔
    ∃ a ∈ alerts, a.user_id = u.user_id ∧ a.is_active = 1)

/-- Well-formedness: every alert row's owner exists in the users table. The
code maintains this because `add_alert` calls `_ensure_user_exists` before
inserting. -/
def alertsUsersClosed (users : List UserRow) (alerts : List Alert) : Prop :=
  ∀ a ∈ alerts, ∃ u ∈ users, u.user_id = a.user_id

-- The ensured users list contains a row for the user and extends the old one.
lemma mem_ensure_self (users : List UserRow) (userId : Int) :
    ∃ u ∈ ensure_user_exists users userId, u.user_id = userId := by
  unfold ensure_user_exists
  by_cases h : (users.any (fun u => u.user_id == userId)) = true
  · rw [if_pos h]
    obtain ⟨u, hu, hp⟩ := List.any_eq_true.mp h
    exact ⟨u, hu, by simpa using hp⟩
  · rw [if_neg h]
    exact ⟨⟨userId, 0⟩, by simp, rfl⟩

lemma mem_ensure_of_mem (users : List UserRow) (userId : Int) :
    ∀ u ∈ users, u ∈ ensure_user_exists users userId := by
  intro u hu
  unfold ensure_user_exists
  split
  · exact hu
  · exact List.mem_append_left _ hu

lemma mem_of_mem_ensure (users : List UserRow) (userId : Int) :
    ∀ u ∈ ensure_user_exists users userId,
      u ∈ users ∨ u = ⟨userId, 0⟩ := by
  intro u hu
  unfold ensure_user_exists at hu
  by_cases h : (users.any (fun u => u.user_id == userId)) = true
  · rw [if_pos h] at hu; exact Or.inl hu
  · rw [if_neg h] at hu
    rcases List.mem_append.mp hu with h1 | h1
    · exact Or.inl h1
    · exact Or.inr (List.mem_singleton.mp h1)

-- Result shapes of add_alert, for rewriting.
lemma add_alert_dup_def (db : AlertDB) (userId : Int) (keyword country : String)
    (newId : Int)
    (hdup : (db.alerts.any (fun a => a.user_id == userId &&
      a.keyword == pyLowerStrip keyword && a.country_code == country &&
      a.is_active == 1)) = true) :
    add_alert db userId keyword country newId
      = (-1, ⟨ensure_user_exists db.users userId, db.alerts⟩) := by
  unfold add_alert; rw [if_pos hdup]

lemma add_alert_new_def (db : AlertDB) (userId : Int) (keyword country : String)
    (newId : Int)
    (hdup : ¬(db.alerts.any (fun a => a.user_id == userId &&
      a.keyword == pyLowerStrip keyword && a.country_code == country &&
      a.is_active == 1)) = true) :
    add_alert db userId keyword country newId
      = (newId,
          ⟨(ensure_user_exists db.users userId).map (setEnabled userId 1),
            db.alerts ++ [⟨newId, userId, pyLowerStrip keyword, country, 1⟩]⟩) := by
  unfold add_alert; rw [if_neg hdup]

-- add_alert preserves the enabled-iff-active invariant and well-formedness.
lemma add_alert_preserves (db : AlertDB) (userId : Int)
    (keyword country : String) (newId : Int)
    (hclosed : alertsUsersClosed db.users db.alerts)
    (hinv : alertsEnabledInvariant db.users db.alerts) :
    alertsEnabledInvariant (add_alert db userId keyword country newId).2.users
        (add_alert db userId keyword country newId).2.alerts ∧
      alertsUsersClosed (add_alert db userId keyword country newId).2.users
        (add_alert db userId keyword country newId).2.alerts := by
  by_cases hdup : (db.alerts.any (fun a => a.user_id == userId &&
      a.keyword == pyLowerStrip keyword && a.country_code == country &&
      a.is_active == 1)) = true
  · rw [add_alert_dup_def db userId keyword country newId hdup]
    have hex : ∃ a ∈ db.alerts, a.user_id = userId ∧ a.is_active = 1 := by
      obtain ⟨a, ha, hp⟩ := List.any_eq_true.mp hdup
      simp only [Bool.and_eq_true, beq_iff_eq] at hp
      exact ⟨a, ha, hp.1.1.1, hp.2⟩
    have hpres : (db.users.any (fun u => u.user_id == userId)) = true := by
      obtain ⟨a, ha, hu1, _⟩ := hex
      obtain ⟨u, hu, huid⟩ := hclosed a ha
      refine List.any_eq_true.mpr ⟨u, hu, ?_⟩
      simp [huid, hu1]
    have hens : ensure_user_exists db.users userId = db.users := by
      unfold ensure_user_exists; rw [if_pos hpres]
    constructor
    · show alertsEnabledInvariant (ensure_user_exists db.users userId) db.alerts
      rw [hens]; exact hinv
    · show alertsUsersClosed (ensure_user_exists db.users userId) db.alerts
      rw [hens]; exact hclosed
  · rw [add_alert_new_def db userId keyword country newId hdup]
    constructor
    · show alertsEnabledInvariant
        ((ensure_user_exists db.users userId).map (setEnabled userId 1))
        (db.alerts ++ [⟨newId, userId, pyLowerStrip keyword, country, 1⟩])
      intro u' hu'
      rw [List.mem_map] at hu'
      obtain ⟨u0, hu0, rfl⟩ := hu'
      by_cases huid : u0.user_id = userId
      · have hset : setEnabled userId 1 u0 = ⟨u0.user_id, 1⟩ := by
          unfold setEnabled; rw [if_pos (by simp [huid])]
        rw [hset]
        constructor
        · intro _
          refine ⟨⟨newId, userId, pyLowerStrip keyword, country, 1⟩,
            List.mem_append_right _ (by simp), ?_, rfl⟩
          exact huid.symm
        · intro _; rfl
      · have hset : setEnabled userId 1 u0 = u0 := setEnabled_eq_of_ne userId 1 u0 huid
        rw [hset]
        have hu0' : u0 ∈ db.users := by
          rcases mem_of_mem_ensure db.users userId u0 hu0 with h | h
          · exact h
          · exact absurd (by rw [h]) huid
        rw [hinv u0 hu0']
        constructor
        · rintro ⟨a, ha, hau, hact⟩
          exact ⟨a, List.mem_append_left _ ha, hau, hact⟩
        · rintro ⟨a, ha, hau, hact⟩
          rcases List.mem_append.mp ha with h1 | h1
          · exact ⟨a, h1, hau, hact⟩
          · exfalso
            rw [List.mem_singleton.mp h1] at hau
            exact huid hau.symm
    · show alertsUsersClosed
        ((ensure_user_exists db.users userId).map (setEnabled userId 1))
        (db.alerts ++ [⟨newId, userId, pyLowerStrip keyword, country, 1⟩])
      intro a ha
      rcases List.mem_append.mp ha with h1 | h1
      · obtain ⟨u, hu, huid⟩ := hclosed a h1
        refine ⟨setEnabled userId 1 u,
          List.mem_map.mpr ⟨u, mem_ensure_of_mem db.users userId u hu, rfl⟩, ?_⟩
        rw [setEnabled_user_id]; exact huid
      · obtain ⟨u, hu, huid⟩ := mem_ensure_self db.users userId
        refine ⟨setEnabled userId 1 u, List.mem_map.mpr ⟨u, hu, rfl⟩, ?_⟩
        rw [setEnabled_user_id, huid, List.mem_singleton.mp h1]

-- Deactivation does not change the active-alert set of a different user.
lemma deact_exists_ne (alerts : List Alert) (alertId userId uid : Int)
    (hne : uid ≠ userId) :
    (∃ a ∈ alerts.map (deactivateMatching alertId userId),
        a.user_id = uid ∧ a.is_active = 1)
      ↔ ∃ a ∈ alerts, a.user_id = uid ∧ a.is_active = 1 := by
  constructor
  · rintro ⟨a, ha, hau, hact⟩
    rw [List.mem_map] at ha
    obtain ⟨a0, ha0, rfl⟩ := ha
    rw [deactivateMatching_user_id] at hau
    exact ⟨a0, ha0, hau, deactivateMatching_active _ _ _ hact⟩
  · rintro ⟨a0, ha0, hau, hact⟩
    have heq : deactivateMatching alertId userId a0 = a0 :=
      deactivateMatching_eq_of_ne _ _ _ (by rw [hau]; exact hne)
    exact ⟨a0, List.mem_map.mpr ⟨a0, ha0, heq⟩, hau, hact⟩

-- An active alert surviving deactivation was active before.
lemma deact_exists_self (alerts : List Alert) (alertId userId : Int) :
    (∃ a ∈ alerts.map (deactivateMatching alertId userId),
        a.user_id = userId ∧ a.is_active = 1)
      → ∃ a ∈ alerts, a.user_id = userId ∧ a.is_active = 1 := by
  rintro ⟨a, ha, hau, hact⟩
  rw [List.mem_map] at ha
  obtain ⟨a0, ha0, rfl⟩ := ha
  rw [deactivateMatching_user_id] at hau
  exact ⟨a0, ha0, hau, deactivateMatching_active _ _ _ hact⟩

-- remove_alert preserves the enabled-iff-active invariant and well-formedness.
lemma remove_alert_preserves (db : AlertDB) (userId alertId : Int)
    (hclosed : alertsUsersClosed db.users db.alerts)
    (hinv : alertsEnabledInvariant db.users db.alerts) :
    alertsEnabledInvariant (remove_alert db userId alertId).2.users
        (remove_alert db userId alertId).2.alerts ∧
      alertsUsersClosed (remove_alert db userId alertId).2.users
        (remove_alert db userId alertId).2.alerts := by
  constructor
  · intro u' hu'
    rw [remove_alert_users_def] at hu'
    rw [remove_alert_alerts_def]
    by_cases hrem : ((((db.alerts.map (deactivateMatching alertId userId)).filter
        (fun a => a.user_id == userId && a.is_active == 1)).length == 0) = true)
    · rw [if_pos hrem] at hu'
      rw [List.mem_map] at hu'
      obtain ⟨u0, hu0, rfl⟩ := hu'
      by_cases huid : u0.user_id = userId
      · have hset : setEnabled userId 0 u0 = ⟨u0.user_id, 0⟩ := by
          unfold setEnabled; rw [if_pos (by simp [huid])]
        rw [hset]
        have hnil : (db.alerts.map (deactivateMatching alertId userId)).filter
            (fun a => a.user_id == userId && a.is_active == 1) = [] :=
          List.length_eq_zero.mp (beq_iff_eq.mp hrem)
        constructor
        · intro h0; simp at h0
        · rintro ⟨a, ha, hau, hact⟩
          exfalso
          have hmem : a ∈ (db.alerts.map (deactivateMatching alertId userId)).filter
              (fun a => a.user_id == userId && a.is_active == 1) := by
            rw [List.mem_filter]
            refine ⟨ha, ?_⟩
            have : a.user_id = userId := hau.trans huid
            simp [this, hact]
          rw [hnil] at hmem
          simp at hmem
      · have hset : setEnabled userId 0 u0 = u0 := setEnabled_eq_of_ne userId 0 u0 huid
        rw [hset]
        rw [hinv u0 hu0]
        exact (deact_exists_ne db.alerts alertId userId u0.user_id huid).symm
    · rw [if_neg hrem] at hu'
      by_cases huid : u'.user_id = userId
      · have hpos : 0 < ((db.alerts.map (deactivateMatching alertId userId)).filter
            (fun a => a.user_id == userId && a.is_active == 1)).length := by
          rcases Nat.eq_zero_or_pos
            (((db.alerts.map (deactivateMatching alertId userId)).filter
              (fun a => a.user_id == userId && a.is_active == 1)).length) with h | h
          · exact absurd (by simp [h]) hrem
          · exact h
        obtain ⟨a, hafil⟩ := List.exists_mem_of_length_pos hpos
        have hmf := List.mem_filter.mp hafil
        have hcond := hmf.2
        simp only [Bool.and_eq_true, beq_iff_eq] at hcond
        have horig : ∃ a0 ∈ db.alerts, a0.user_id = userId ∧ a0.is_active = 1 :=
          deact_exists_self db.alerts alertId userId ⟨a, hmf.1, hcond.1, hcond.2⟩
        have henab : u'.alerts_enabled = 1 := by
          rw [hinv u' hu', huid]
          exact horig
        constructor
        · intro _
          exact ⟨a, hmf.1, by rw [huid]; exact hcond.1, hcond.2⟩
        · intro _
          exact henab
      · rw [hinv u' hu']
        exact (deact_exists_ne db.alerts alertId userId u'.user_id huid).symm
  · intro a ha
    rw [remove_alert_alerts_def] at ha
    rw [List.mem_map] at ha
    obtain ⟨a0, ha0, rfl⟩ := ha
    obtain ⟨u, hu, huid⟩ := hclosed a0 ha0
    rw [remove_alert_users_def]
    split
    · refine ⟨setEnabled userId 0 u, List.mem_map.mpr ⟨u, hu, rfl⟩, ?_⟩
      rw [setEnabled_user_id, deactivateMatching_user_id]
      exact huid
    · refine ⟨u, hu, ?_⟩
      rw [deactivateMatching_user_id]
      exact huid

/-- C10: for every well-formed database state (each alert owner present in
the users table) in which a user's `alerts_enabled` flag is 1 exactly when
the user has at least one active alert, both `add_alert` and `remove_alert`
preserve this invariant (and the well-formedness): `add_alert` sets the flag
to 1 when inserting, and `remove_alert` resets it to 0 exactly when the last
active alert of the user is deactivated. -/
theorem alerts_enabled_iff_active_preserved (db : AlertDB)
    (userId newId alertId : Int) (keyword country : String)
    (hclosed : alertsUsersClosed db.users db.alerts)
    (hinv : alertsEnabledInvariant db.users db.alerts) :
    (alertsEnabledInvariant (add_alert db userId keyword country newId).2.users
        (add_alert db userId keyword country newId).2.alerts ∧
      alertsUsersClosed (add_alert db userId keyword country newId).2.users
        (add_alert db userId keyword country newId).2.alerts) ∧
      (alertsEnabledInvariant (remove_alert db userId alertId).2.users
          (remove_alert db userId alertId).2.alerts ∧
        alertsUsersClosed (remove_alert db userId alertId).2.users
          (remove_alert db userId alertId).2.alerts) :=
  ⟨add_alert_preserves db userId keyword country newId hclosed hinv,
    remove_alert_preserves db userId alertId hclosed hinv⟩

/-- Witness for C10 on a concrete one-user database with no alerts and the
flag off: adding and removing preserve the invariant. -/
theorem alerts_enabled_iff_active_preserved_witness :
    (alertsEnabledInvariant
        (add_alert ⟨[⟨1, 0⟩], []⟩ 1 "Dev" "qa" 5).2.users
        (add_alert ⟨[⟨1, 0⟩], []⟩ 1 "Dev" "qa" 5).2.alerts ∧
      alertsUsersClosed
        (add_alert ⟨[⟨1, 0⟩], []⟩ 1 "Dev" "qa" 5).2.users
        (add_alert ⟨[⟨1, 0⟩], []⟩ 1 "Dev" "qa" 5).2.alerts) ∧
      (alertsEnabledInvariant
          (remove_alert ⟨[⟨1, 0⟩], []⟩ 1 3).2.users
          (remove_alert ⟨[⟨1, 0⟩], []⟩ 1 3).2.alerts ∧
        alertsUsersClosed
          (remove_alert ⟨[⟨1, 0⟩], []⟩ 1 3).2.users
          (remove_alert ⟨[⟨1, 0⟩], []⟩ 1 3).2.alerts) :=
  alerts_enabled_iff_active_preserved ⟨[⟨1, 0⟩], []⟩ 1 5 3 "Dev" "qa"
    (by intro a ha; simp at ha)
    (by intro u hu; simp at hu; simp [hu])

/-- Embeds the selection loop of `check_and_send_alerts` (bot.py lines 1089
to 1094) over one user's `sent_jobs` set: a job whose URL is non-empty and
not yet marked sent is collected into `new_jobs` and its URL is marked sent
(`mark_job_sent` inserts into the UNIQUE (user, url) table, modelled as the
list of that user's sent URLs).  Returns the delivered jobs and the new sent
set. -/
def alert_select (sent : List String) : List Job → List Job × List String
  | [] => ([], sent)
  | job :: rest =>
    let url := jobUrlStr job
    if url ≠ "" ∧ url ∉ sent then
      (job :: (alert_select (url :: sent) rest).1,
        (alert_select (url :: sent) rest).2)
    else
      alert_select sent rest

/-- One alert-scheduler pass for one alert: only the top `results[:5]` jobs
are considered (bot.py line 1090). -/
def check_alert_run (sent : List String) (results : List Job) :
    List Job × List String :=
  alert_select sent (results.take 5)

/-- A sequence of scheduler runs for one (user, alert) pair: each run sees
the search results of its time and the sent set left by the previous runs;
returns the list of jobs delivered by each run. -/
def run_alert_schedule (sent : List String) : List (List Job) → List (List Job)
  | [] => []
  | results :: later =>
    (check_alert_run sent results).1 ::
      run_alert_schedule (check_alert_run sent results).2 later

-- The sent set only grows across a selection pass.
lemma alert_select_sent_sub (sent : List String) (l : List Job) :
    ∀ u ∈ sent, u ∈ (alert_select sent l).2 := by
  induction l generalizing sent with
  | nil => intro u hu; simpa [alert_select] using hu
  | cons job rest ih =>
    intro u hu
    by_cases hc : jobUrlStr job ≠ "" ∧ jobUrlStr job ∉ sent
    · rw [alert_select, if_pos hc]
      exact ih (jobUrlStr job :: sent) u (List.mem_cons_of_mem _ hu)
    · rw [alert_select, if_neg hc]
      exact ih sent u hu

-- Every delivered job passed the not-already-sent check and its URL is
-- marked sent afterwards.
lemma alert_select_mem (sent : List String) (l : List Job) :
    ∀ j ∈ (alert_select sent l).1,
      jobUrlStr j ∉ sent ∧ jobUrlStr j ≠ "" ∧
        jobUrlStr j ∈ (alert_select sent l).2 := by
  induction l generalizing sent with
  | nil => intro j hj; simp [alert_select] at hj
  | cons job rest ih =>
    intro j hj
    by_cases hc : jobUrlStr job ≠ "" ∧ jobUrlStr job ∉ sent
    · rw [alert_select, if_pos hc] at hj
      rw [alert_select, if_pos hc]
      rcases List.mem_cons.mp hj with rfl | hj'
      · exact ⟨hc.2, hc.1,
          alert_select_sent_sub (jobUrlStr j :: sent) rest (jobUrlStr j)
            (List.mem_cons_self _ _)⟩
      · obtain ⟨hns, hne, hmem⟩ := ih (jobUrlStr job :: sent) j hj'
        exact ⟨fun h => hns (List.mem_cons_of_mem _ h), hne, hmem⟩
    · rw [alert_select, if_neg hc] at hj
      rw [alert_select, if_neg hc]
      exact ih sent j hj

-- The jobs delivered in one pass have pairwise distinct URLs.
lemma alert_select_pairwise (sent : List String) (l : List Job) :
    (alert_select sent l).1.Pairwise (fun a b => jobUrlStr a ≠ jobUrlStr b) := by
  induction l generalizing sent with
  | nil => simp [alert_select]
  | cons job rest ih =>
    by_cases hc : jobUrlStr job ≠ "" ∧ jobUrlStr job ∉ sent
    · rw [alert_select, if_pos hc]
      refine List.pairwise_cons.mpr ⟨?_, ih _⟩
      intro j hj h
      have := (alert_select_mem (jobUrlStr job :: sent) rest j hj).1
      exact this (h ▸ List.mem_cons_self _ _)
    · rw [alert_select, if_neg hc]; exact ih sent

-- Across a whole schedule, delivered URLs are pairwise distinct and none of
-- them was in the initial sent set.
lemma run_alert_schedule_spec (sent : List String) (runs : List (List Job)) :
    (run_alert_schedule sent runs).flatten.Pairwise
        (fun a b => jobUrlStr a ≠ jobUrlStr b) ∧
      ∀ j ∈ (run_alert_schedule sent runs).flatten, jobUrlStr j ∉ sent := by
  induction runs generalizing sent with
  | nil => exact ⟨by simp [run_alert_schedule], by simp [run_alert_schedule]⟩
  | cons results later ih =>
    constructor
    · rw [run_alert_schedule, List.flatten_cons]
      apply List.pairwise_append.mpr
      refine ⟨alert_select_pairwise sent (results.take 5),
        (ih ((check_alert_run sent results).2)).1, ?_⟩
      intro a ha b hb
      have ha2 := (alert_select_mem sent (results.take 5) a ha).2.2
      have hb2 := (ih ((check_alert_run sent results).2)).2 b hb
      intro heq
      exact hb2 (heq ▸ ha2)
    · intro j hj
      rw [run_alert_schedule, List.flatten_cons] at hj
      rcases List.mem_append.mp hj with h1 | h1
      · exact (alert_select_mem sent (results.take 5) j h1).1
      · intro hsent
        exact (ih ((check_alert_run sent results).2)).2 j h1
          (alert_select_sent_sub sent (results.take 5) _ hsent)

/-- C2: over any sequence of alert-scheduler runs for one user, once a URL
is in the sent set no later run delivers a job with that URL (the count of
delivered jobs carrying it is zero), and in general each URL is delivered at
most once across the whole schedule, because every delivered job passes the
not-already-sent check and is marked sent at selection. -/
theorem alert_no_redelivery (sent : List String) (runs : List (List Job))
    (url : String) (hsent : url ∈ sent) :
    ((run_alert_schedule sent runs).flatten.filter
          (fun j => jobUrlStr j == url)).length = 0 ∧
      ((run_alert_schedule sent runs).flatten.filter
          (fun j => jobUrlStr j == url)).length ≤ 1 := by
  constructor
  · rw [List.length_eq_zero]
    apply List.filter_eq_nil_iff.mpr
    intro j hj
    have hns := (run_alert_schedule_spec sent runs).2 j hj
    simp only [beq_iff_eq]
    intro heq
    exact hns (heq ▸ hsent)
  · exact pairwise_filter_le_one _ _ (run_alert_schedule_spec sent runs).1

/-- Witness for C2: with "u1" already marked sent, a run offering a "u1" job
and a "u2" job never re-delivers "u1". -/
theorem alert_no_redelivery_witness :
    ((run_alert_schedule ["u1"]
          [[⟨some "u1", "a", "", "", "", "", "", ""⟩,
            ⟨some "u2", "b", "", "", "", "", "", ""⟩]]).flatten.filter
        (fun j => jobUrlStr j == "u1")).length = 0 ∧
      ((run_alert_schedule ["u1"]
            [[⟨some "u1", "a", "", "", "", "", "", ""⟩,
              ⟨some "u2", "b", "", "", "", "", "", ""⟩]]).flatten.filter
          (fun j => jobUrlStr j == "u1")).length ≤ 1 :=
  alert_no_redelivery ["u1"]
    [[⟨some "u1", "a", "", "", "", "", "", ""⟩,
      ⟨some "u2", "b", "", "", "", "", "", ""⟩]] "u1" (by decide)

end LinkedIt
